import Mathlib

/-!
# Relevance-ranked product search of the GoGreen backend

A shallow embedding of `ProductModel.search` (src/src/models/product.model.ts),
the one non-trivial algorithm of the repository: a single SQL query that
filters catalog products by four OR'd match strategies and orders them by a
hand-tuned composite relevance score.

The query's own text is embedded concretely: the `LIKE` patterns built from
the query string, `LOWER`, `COALESCE(col, '')`, the three `CASE` score terms
(100/50/25), the weighted tsvector documents handed to the store, the OR of
the four strategies, the optional `is_active` filter and the `ORDER BY ...
DESC`.  The PostgreSQL primitives the query merely invokes — `@@` on a
weighted tsvector with `plainto_tsquery`, `ts_rank`, `similarity`,
`word_similarity` — are abstracted as a parameter record `StoreFns`, since
the source composes them without implementing them.  Rows are a list of
`Product` records; `ORDER BY`'s tie behaviour (unspecified below row order)
is modelled by a stable insertion sort.
-/

namespace GoGreen

/-- A catalog product row, restricted to the columns the search query reads
(`name`, `description`, `short_description`, `is_active`) plus the primary
key that distinguishes rows.  `description` and `short_description` are
nullable in the schema, `name` is not. -/
structure Product where
  id : String
  name : String
  description : Option String
  shortDescription : Option String
  isActive : Bool
deriving DecidableEq, Repr

/-- SQL `LOWER`: character-wise ASCII case folding, as applied by the query
to names, descriptions, the raw query string and the LIKE patterns. -/
def lowerStr (s : String) : String := ⟨s.data.map Char.toLower⟩

/-- SQL `LIKE` pattern matching as PostgreSQL implements it, on character
lists (pattern first): `%` matches any sequence of characters, `_` matches
exactly one character, the default escape character `\` makes the following
pattern character match literally (so `\%` is a literal percent sign), and
any other pattern character matches itself.  A pattern ending in a bare `\`
is an error in PostgreSQL (`LIKE pattern must not end with escape
character`); it is modelled as matching nothing, and cannot arise from this
query: its patterns always end in an appended `%`, which a preceding `\` at
most turns into a literal `%`. -/
def likeMatch : List Char → List Char → Bool
  | [] => fun s => s.isEmpty
  | p :: ps => fun s =>
    if p = '\\' then
      match ps with
      | [] => false
      | p2 :: ps2 =>
        match s with
        | [] => false
        | c :: cs => (p2 == c) && likeMatch ps2 cs
    else if p = '%' then s.tails.any (likeMatch ps)
    else
      match s with
      | [] => false
      | c :: cs => (if p = '_' then true else p == c) && likeMatch ps cs

/-- `s LIKE pat` for strings, in SQL argument order. -/
def sqlLike (s pat : String) : Bool := likeMatch pat.data s.data

/-- The pattern `'%' || query || '%'` the source builds
(`const searchPattern = `%${query}%``). -/
def searchPattern (query : String) : String := "%" ++ query ++ "%"

/-- The store primitives the query invokes without implementing: full-text
match (`@@` of a weighted tsvector document against
`plainto_tsquery('english', q)`), full-text ranking (`ts_rank` of a weighted
document against the parsed query), trigram `similarity` and
`word_similarity`.  A weighted document is the list of (weight label, field
text) pairs fed to `setweight(to_tsvector('english', field), w)`. -/
structure StoreFns where
  ftsMatch : List (Char × String) → String → Bool
  tsRank : List (Char × String) → String → ℚ
  similarity : String → String → ℚ
  wordSimilarity : String → String → ℚ

/-- The weighted document of matching strategy 2: name with weight A,
`coalesce(description, '')` with weight B, `coalesce(short_description, '')`
with weight C. -/
def ftsDoc (p : Product) : List (Char × String) :=
  [('A', p.name), ('B', p.description.getD ""), ('C', p.shortDescription.getD "")]

/-- The weighted document inside the ORDER BY's `ts_rank` call: name with
weight A and `coalesce(description, '')` with weight B only — the source's
ranking expression does not include the short description. -/
def rankDoc (p : Product) : List (Char × String) :=
  [('A', p.name), ('B', p.description.getD "")]

/-- Matching strategy 1: case-insensitive LIKE of `%query%` against name,
description and short description (null fields coalesced to `''`). -/
def strategy1 (q : String) (p : Product) : Bool :=
  sqlLike (lowerStr p.name) (lowerStr (searchPattern q)) ||
  sqlLike (lowerStr (p.description.getD "")) (lowerStr (searchPattern q)) ||
  sqlLike (lowerStr (p.shortDescription.getD "")) (lowerStr (searchPattern q))

/-- The WHERE clause's OR of the four match strategies: LIKE patterns,
full-text `@@`, `similarity(LOWER(name), LOWER(q)) > 0.2` and
`word_similarity(LOWER(q), LOWER(name)) > 0.3`. -/
def matchesAny (fns : StoreFns) (q : String) (p : Product) : Bool :=
  strategy1 q p ||
  fns.ftsMatch (ftsDoc p) q ||
  decide ((1 : ℚ)/5 < fns.similarity (lowerStr p.name) (lowerStr q)) ||
  decide ((3 : ℚ)/10 < fns.wordSimilarity (lowerStr q) (lowerStr p.name))

/-- `CASE WHEN LOWER(name) = LOWER(q) THEN 100 ELSE 0 END`. -/
def exactTerm (q : String) (p : Product) : ℚ :=
  if lowerStr p.name = lowerStr q then 100 else 0

/-- `CASE WHEN LOWER(name) LIKE LOWER(q || '%') THEN 50 ELSE 0 END`. -/
def startsTerm (q : String) (p : Product) : ℚ :=
  if sqlLike (lowerStr p.name) (lowerStr (q ++ "%")) = true then 50 else 0

/-- `CASE WHEN LOWER(name) LIKE LOWER('%' || q || '%') THEN 25 ELSE 0 END`. -/
def containsTerm (q : String) (p : Product) : ℚ :=
  if sqlLike (lowerStr p.name) (lowerStr (searchPattern q)) = true then 25 else 0

/-- The ORDER BY's composite relevance score, exactly as the source computes
it: the three CASE terms, plus `ts_rank` over the name/description document
times 10, plus `similarity(LOWER(name), LOWER(q))` times 30, plus
`word_similarity(LOWER(q), LOWER(name))` times 20. -/
def score (fns : StoreFns) (q : String) (p : Product) : ℚ :=
  exactTerm q p + startsTerm q p + containsTerm q p +
    fns.tsRank (rankDoc p) q * 10 +
    fns.similarity (lowerStr p.name) (lowerStr q) * 30 +
    fns.wordSimilarity (lowerStr q) (lowerStr p.name) * 20

/-- Modelled from the spec: the composite score as §4.1 words it, whose
full-text rank term is computed "over the same weighted tokenized document as
strategy 2" — that is, over `ftsDoc` (name A, description B, short
description C) instead of the source's `rankDoc`.  Kept separate so the
ordering the spec claims can be compared with the ordering the code
produces. -/
def specScore (fns : StoreFns) (q : String) (p : Product) : ℚ :=
  exactTerm q p + startsTerm q p + containsTerm q p +
    fns.tsRank (ftsDoc p) q * 10 +
    fns.similarity (lowerStr p.name) (lowerStr q) * 30 +
    fns.wordSimilarity (lowerStr q) (lowerStr p.name) * 20

/-- `ORDER BY score DESC` as a relation: `a` may precede `b` when `a`'s
score is at least `b`'s. -/
def rankRel (fns : StoreFns) (q : String) (a b : Product) : Prop :=
  score fns q b ≤ score fns q a

instance (fns : StoreFns) (q : String) : DecidableRel (rankRel fns q) :=
  fun _ _ => inferInstanceAs (Decidable (_ ≤ _))

instance (fns : StoreFns) (q : String) : IsTotal Product (rankRel fns q) :=
  ⟨fun a b => le_total (score fns q b) (score fns q a)⟩

instance (fns : StoreFns) (q : String) : IsTrans Product (rankRel fns q) :=
  ⟨fun _ _ _ h1 h2 => le_trans h2 h1⟩

/-- `ProductModel.search`'s query over available rows: keep the rows passing
the optional `is_active` filter AND the OR of the four strategies, ordered by
composite score descending (stably, ties in row order). -/
def ProductModel.search (fns : StoreFns) (query : String) (includeInactive : Bool)
    (rows : List Product) : List Product :=
  (rows.filter fun p => (includeInactive || p.isActive) && matchesAny fns query p).insertionSort
    (rankRel fns query)

/-- The error taxonomy of the spec's §7 for the store boundary. -/
inductive StoreError where
  | storeUnavailable : StoreError
  | invalidQuery : StoreError
deriving DecidableEq, Repr

/-- `ProductModel.search` as the caller awaits it: the store either fails
(the rejected promise of the db call) or yields its rows.  The source has no
try/catch, no retry and no fallback around the query, so a store error is
rethrown unchanged and no rows are produced. -/
def ProductModel.searchDb (fns : StoreFns) (query : String) (includeInactive : Bool)
    (store : Except StoreError (List Product)) : Except StoreError (List Product) :=
  match store with
  | .error e => .error e
  | .ok rows => .ok (ProductModel.search fns query includeInactive rows)

/-- A trivial instantiation of the store primitives for concrete test
stores: no full-text hit, zero rank, zero similarity everywhere.  With it
only the LIKE strategy can match, which suffices for the concrete stores
below. -/
def zeroFns : StoreFns where
  ftsMatch := fun _ _ => false
  tsRank := fun _ _ => 0
  similarity := fun _ _ => 0
  wordSimilarity := fun _ _ => 0

/-- A store instantiation whose full-text rank counts the document fields
equal to the query, scaled by 20: a legitimate ranking in that it depends
only on the document and the query, and one that exposes which weighted
document the ranking expression is computed over. -/
def cexFns : StoreFns where
  ftsMatch := fun doc q => doc.any fun wf => wf.2 == q
  tsRank := fun doc q => ((doc.countP fun wf => wf.2 == q : Nat) : ℚ) * 20
  similarity := fun _ _ => 0
  wordSimilarity := fun _ _ => 0

/-- A product whose only occurrence of "solar" is in its short description:
ranked 0 by the source's ORDER BY (whose `ts_rank` document omits the short
description) but highly by the spec's composite (whose document is the full
strategy-2 document). -/
def cexHidden : Product :=
  { id := "p1", name := "aaa", description := none,
    shortDescription := some "solar", isActive := true }

/-- A product matching "solar" only as a name substring: 25 points from the
CASE terms under both readings of the composite score. -/
def cexPlain : Product :=
  { id := "p2", name := "xsolarx", description := none,
    shortDescription := none, isActive := true }

/-- A plainly matching active product for concrete witnesses. -/
def solarRow : Product :=
  { id := "w1", name := "solar", description := none,
    shortDescription := none, isActive := true }

/-- An active product with a capitalised name, for the exact-match witness. -/
def solarCapRow : Product :=
  { id := "w2", name := "Solar", description := none,
    shortDescription := none, isActive := true }

/-- An active product whose fields contain no `%` character, for the
wildcard-query witness. -/
def plainRow : Product :=
  { id := "w3", name := "aaa", description := none,
    shortDescription := none, isActive := true }

/-- An active product whose name is a single backslash — LIKE's default
escape character.  Its name equals the query `"\"` yet the pattern `%\%`
demands a literal trailing `%`, so no strategy matches it. -/
def escRow : Product :=
  { id := "c4", name := "\\", description := none,
    shortDescription := none, isActive := true }

/-- The score's non-start-bonus part: the composite score with the 50-point
`LIKE LOWER(q || '%')` CASE term removed and every other term unchanged. -/
def scoreOtherTerms (fns : StoreFns) (q : String) (p : Product) : ℚ :=
  exactTerm q p + containsTerm q p +
    fns.tsRank (rankDoc p) q * 10 +
    fns.similarity (lowerStr p.name) (lowerStr q) * 30 +
    fns.wordSimilarity (lowerStr q) (lowerStr p.name) * 20

/-! ## Properties of the LIKE matcher -/

theorem data_lowerStr (s : String) : (lowerStr s).data = s.data.map Char.toLower := rfl

theorem data_lowerStr_append (a b : String) :
    (lowerStr (a ++ b)).data = (lowerStr a).data ++ (lowerStr b).data := by
  simp [data_lowerStr, String.data_append]

theorem data_lowerStr_pct : (lowerStr "%").data = ['%'] := rfl

theorem likeMatch_nil (s : List Char) : likeMatch [] s = s.isEmpty := rfl

/-- Unfolding: a pattern that is a single bare escape character matches
nothing (an error in PostgreSQL; unreachable from this query's patterns). -/
theorem likeMatch_esc_lone (s : List Char) : likeMatch ['\\'] s = false := by
  simp [likeMatch]

/-- Unfolding: an escaped pattern character rejects the empty string. -/
theorem likeMatch_esc_nil (p2 : Char) (ps : List Char) :
    likeMatch ('\\' :: p2 :: ps) [] = false := by
  simp [likeMatch]

/-- Unfolding: an escaped pattern character matches exactly itself,
literally, and the rest of the pattern matches the rest of the string. -/
theorem likeMatch_esc_cons (p2 : Char) (ps : List Char) (c : Char) (cs : List Char) :
    likeMatch ('\\' :: p2 :: ps) (c :: cs) = ((p2 == c) && likeMatch ps cs) := by
  simp [likeMatch]

/-- Unfolding: a pattern starting with `%` matches a string exactly when the
rest of the pattern matches some suffix of it. -/
theorem likeMatch_pct (ps s : List Char) :
    likeMatch ('%' :: ps) s = s.tails.any (likeMatch ps) := by
  simp [likeMatch]

/-- Unfolding: a pattern starting with a non-`%` character rejects the empty
string. -/
theorem likeMatch_cons_nil (c : Char) (ps : List Char) (hc : c ≠ '%') :
    likeMatch (c :: ps) [] = false := by
  by_cases hb : c = '\\'
  · subst hb
    cases ps with
    | nil => exact likeMatch_esc_lone []
    | cons p2 ps2 => exact likeMatch_esc_nil p2 ps2
  · simp [likeMatch, hc, hb]

/-- Unfolding: a pattern starting with a non-`%`, non-escape character
matches `c2 :: cs` when the head matches `c2` (always, for `_`; by equality
otherwise) and the tail pattern matches `cs`. -/
theorem likeMatch_cons_cons (c : Char) (ps : List Char) (c2 : Char) (cs : List Char)
    (hc : c ≠ '%') (hb : c ≠ '\\') :
    likeMatch (c :: ps) (c2 :: cs) =
      ((if c = '_' then true else c == c2) && likeMatch ps cs) := by
  simp [likeMatch, hc, hb]

/-- A string without the escape character matches itself as a LIKE pattern:
a literal character matches itself, `_` matches the character standing at
its place, and `%` may consume exactly the `%` character standing at its
place.  (A backslash in the string would instead escape the following
pattern position.) -/
theorem likeMatch_self : ∀ s : List Char, '\\' ∉ s → likeMatch s s = true
  | [], _ => rfl
  | c :: cs, h => by
    have hb : c ≠ '\\' := by
      intro hx
      rw [hx] at h
      exact h (List.mem_cons_self _ _)
    have hcs : '\\' ∉ cs := fun hm => h (List.mem_cons_of_mem c hm)
    by_cases hc : c = '%'
    · subst hc
      rw [likeMatch_pct, List.any_eq_true]
      exact ⟨cs, by simp [List.mem_tails], likeMatch_self cs hcs⟩
    · rw [likeMatch_cons_cons c cs c cs hc hb, Bool.and_eq_true]
      refine ⟨?_, likeMatch_self cs hcs⟩
      by_cases hu : c = '_' <;> simp [hu]

/-- Appending `%` to a pattern lets it absorb any extension of a string the
pattern already matches. -/
theorem likeMatch_append_pct : ∀ (p t u : List Char), likeMatch p t = true →
    likeMatch (p ++ ['%']) (t ++ u) = true
  | [], t, u, h => by
    have ht : t = [] := by simpa [likeMatch_nil, List.isEmpty_iff] using h
    subst ht
    rw [List.nil_append, List.nil_append, likeMatch_pct, List.any_eq_true]
    exact ⟨[], by simp [List.mem_tails], rfl⟩
  | c :: ps, t, u, h => by
    by_cases hb : c = '\\'
    · subst hb
      cases ps with
      | nil => rw [likeMatch_esc_lone] at h; exact absurd h (by simp)
      | cons p2 ps2 =>
        cases t with
        | nil => rw [likeMatch_esc_nil] at h; exact absurd h (by simp)
        | cons c2 cs =>
          rw [likeMatch_esc_cons, Bool.and_eq_true] at h
          rw [List.cons_append, List.cons_append, List.cons_append,
            likeMatch_esc_cons, Bool.and_eq_true]
          exact ⟨h.1, likeMatch_append_pct ps2 cs u h.2⟩
    · by_cases hc : c = '%'
      · subst hc
        rw [likeMatch_pct, List.any_eq_true] at h
        rw [List.cons_append, likeMatch_pct, List.any_eq_true]
        obtain ⟨v, hv, hlk⟩ := h
        rw [List.mem_tails] at hv
        obtain ⟨w, rfl⟩ := hv
        refine ⟨v ++ u, ?_, likeMatch_append_pct ps v u hlk⟩
        rw [List.mem_tails]
        exact ⟨w, by rw [List.append_assoc]⟩
      · cases t with
        | nil => rw [likeMatch_cons_nil c ps hc] at h; exact absurd h (by simp)
        | cons c2 cs =>
          rw [likeMatch_cons_cons c ps c2 cs hc hb, Bool.and_eq_true] at h
          rw [List.cons_append, List.cons_append,
            likeMatch_cons_cons c (ps ++ ['%']) c2 (cs ++ u) hc hb, Bool.and_eq_true]
          exact ⟨h.1, likeMatch_append_pct ps cs u h.2⟩

/-- Prepending `%` to a pattern keeps every match (the `%` absorbs the empty
sequence). -/
theorem likeMatch_pct_cons (p t : List Char) (h : likeMatch p t = true) :
    likeMatch ('%' :: p) t = true := by
  rw [likeMatch_pct, List.any_eq_true]
  exact ⟨t, by simp [List.mem_tails], h⟩

/-- The pattern `%s%` matches `s` itself, provided `s` contains no escape
character. -/
theorem likeMatch_pct_wrap (t : List Char) (ht : '\\' ∉ t) :
    likeMatch ('%' :: (t ++ ['%'])) t = true := by
  apply likeMatch_pct_cons
  have h := likeMatch_append_pct t t [] (likeMatch_self t ht)
  simpa using h

/-- ASCII lowercasing maps no character to a backslash except the backslash
itself: on the uppercase range it lands in the lowercase letters. -/
theorem toLower_ne_backslash (c : Char) (hc : c ≠ '\\') : c.toLower ≠ '\\' := by
  unfold Char.toLower
  show (if c.toNat ≥ 65 ∧ c.toNat ≤ 90 then Char.ofNat (c.toNat + 32) else c) ≠ '\\'
  by_cases h : c.toNat ≥ 65 ∧ c.toNat ≤ 90
  · rw [if_pos h]
    intro heq
    have hv : (c.toNat + 32).isValidChar := by
      left
      omega
    have ht : (Char.ofNat (c.toNat + 32)).toNat = c.toNat + 32 := by
      unfold Char.ofNat
      rw [dif_pos hv]
      rfl
    rw [heq] at ht
    have h92 : ('\\').toNat = 92 := by decide
    omega
  · rw [if_neg h]
    exact hc

/-- A backslash-free query string stays backslash-free after `LOWER`. -/
theorem backslash_not_mem_lowerStr (q : String) (h : '\\' ∉ q.data) :
    '\\' ∉ (lowerStr q).data := by
  rw [data_lowerStr]
  intro hmem
  obtain ⟨c, hc, hcl⟩ := List.mem_map.mp hmem
  exact toLower_ne_backslash c (fun hx => h (hx ▸ hc)) hcl

/-- A non-empty pattern consisting only of `%` matches every string. -/
theorem likeMatch_all_pct : ∀ p : List Char, p ≠ [] → (∀ c ∈ p, c = '%') →
    ∀ s, likeMatch p s = true
  | [], h, _, _ => absurd rfl h
  | [c], _, hall, s => by
    have hc : c = '%' := hall c (by simp)
    subst hc
    rw [likeMatch_pct, List.any_eq_true]
    exact ⟨[], by simp [List.mem_tails], rfl⟩
  | c :: c2 :: ps, _, hall, s => by
    have hc : c = '%' := hall c (by simp)
    subst hc
    rw [likeMatch_pct, List.any_eq_true]
    refine ⟨s, by simp [List.mem_tails], ?_⟩
    exact likeMatch_all_pct (c2 :: ps) (by simp) (fun x hx => hall x (by simp [hx])) s

theorem data_lowerStr_searchPattern (q : String) :
    (lowerStr (searchPattern q)).data = '%' :: ((lowerStr q).data ++ ['%']) := by
  simp [searchPattern, data_lowerStr_append, data_lowerStr_pct]

/-! ## Membership in the search result -/

/-- A row is in the search result exactly when it is a stored row passing the
WHERE clause (active filter AND strategy OR). -/
theorem mem_search_iff (fns : StoreFns) (q : String) (incl : Bool)
    (rows : List Product) (p : Product) :
    p ∈ ProductModel.search fns q incl rows ↔
      p ∈ rows ∧ ((incl || p.isActive) && matchesAny fns q p) = true := by
  unfold ProductModel.search
  rw [List.mem_insertionSort, List.mem_filter]

/-! ## The specification's claims -/

/-- C2: a product record is in the result of `search` exactly when it is a
stored row satisfying at least one of the four match strategies (the LIKE
containment strategy over name/description/short description, the weighted
full-text match, trigram similarity of lowercased name vs lowercased query
above 0.2, or word similarity of lowercased query vs lowercased name above
0.3) and, the active filter: when `includeInactive` is false the row must be
active. -/
theorem search_mem_iff_strategies (fns : StoreFns) (q : String) (incl : Bool)
    (rows : List Product) (p : Product) :
    p ∈ ProductModel.search fns q incl rows ↔
      p ∈ rows ∧
        (strategy1 q p = true ∨ fns.ftsMatch (ftsDoc p) q = true ∨
          (1 : ℚ)/5 < fns.similarity (lowerStr p.name) (lowerStr q) ∨
          (3 : ℚ)/10 < fns.wordSimilarity (lowerStr q) (lowerStr p.name)) ∧
        (incl = true ∨ p.isActive = true) := by
  rw [mem_search_iff]
  simp only [matchesAny, Bool.and_eq_true, Bool.or_eq_true, decide_eq_true_eq]
  tauto

/-- C3: every product returned with the active-only filter is also returned
when inactive products are included — enabling inactive never removes a
result. -/
theorem search_active_subset (fns : StoreFns) (q : String) (rows : List Product)
    (p : Product) (h : p ∈ ProductModel.search fns q false rows) :
    p ∈ ProductModel.search fns q true rows := by
  rw [mem_search_iff] at h ⊢
  obtain ⟨hmem, hcond⟩ := h
  rw [Bool.and_eq_true] at hcond ⊢
  exact ⟨hmem, by simp, hcond.2⟩

/-- Witness for C3 at a concrete store: an active product named "solar"
found by `search "solar"` under both flag values. -/
theorem search_active_subset_witness :
    solarRow ∈ ProductModel.search zeroFns "solar" false [solarRow] ∧
    solarRow ∈ ProductModel.search zeroFns "solar" true [solarRow] := by
  have h0 : solarRow ∈ ProductModel.search zeroFns "solar" false [solarRow] := by
    rw [mem_search_iff]
    refine ⟨by decide, ?_⟩
    have h1 : strategy1 "solar" solarRow = true := by decide
    have h2 : solarRow.isActive = true := rfl
    simp [matchesAny, h1, h2]
  exact ⟨h0, search_active_subset zeroFns "solar" [solarRow] solarRow h0⟩

/-- C5: `search` is deterministic — against an unchanged store, repeated
invocation with the same query and flag returns the same ordered sequence. -/
theorem search_deterministic (fns : StoreFns) (q : String) (flag : Bool)
    (rows1 rows2 : List Product) (h : rows1 = rows2) :
    ProductModel.search fns q flag rows1 = ProductModel.search fns q flag rows2 := by
  rw [h]

/-- Witness for C5 at a concrete store. -/
theorem search_deterministic_witness :
    ([solarRow] : List Product) = [solarRow] ∧
    ProductModel.search zeroFns "solar" true [solarRow] =
      ProductModel.search zeroFns "solar" true [solarRow] :=
  ⟨rfl, search_deterministic zeroFns "solar" true [solarRow] [solarRow] rfl⟩

/-- C7: when the store is unavailable the operation fails with the store's
error and produces no rows: the error propagates unchanged (the source has
no catch, no retry and no local recovery around the query), `StoreUnavailable`
in particular. -/
theorem searchDb_error_propagation (fns : StoreFns) (q : String) (incl : Bool) :
    ProductModel.searchDb fns q incl (Except.error StoreError.storeUnavailable) =
      Except.error StoreError.storeUnavailable ∧
    ∀ e : StoreError,
      ProductModel.searchDb fns q incl (Except.error e) = Except.error e :=
  ⟨rfl, fun _ => rfl⟩

/-- C8: a store answering with rows none of which pass the WHERE clause — in
particular an empty store — yields `ok []`: the empty result set, not an
error. -/
theorem search_no_match_empty (fns : StoreFns) (q : String) (incl : Bool)
    (rows : List Product)
    (h : ∀ p ∈ rows, ((incl || p.isActive) && matchesAny fns q p) = false) :
    ProductModel.searchDb fns q incl (Except.ok rows) = Except.ok [] := by
  have hf : (rows.filter fun p => (incl || p.isActive) && matchesAny fns q p) = [] :=
    List.filter_eq_nil_iff.mpr fun a ha => by simp [h a ha]
  simp [ProductModel.searchDb, ProductModel.search, hf, List.insertionSort]

/-- Witness for C8 at the empty store: `search "anything" true` over no rows
returns the empty sequence without error. -/
theorem search_no_match_empty_witness :
    (∀ p ∈ ([] : List Product),
      ((true || p.isActive) && matchesAny zeroFns "anything" p) = false) ∧
    ProductModel.searchDb zeroFns "anything" true (Except.ok []) = Except.ok [] :=
  ⟨by simp, search_no_match_empty zeroFns "anything" true [] (by simp)⟩

/-- C9: a null description or short description is matched and scored exactly
as the empty string: the query coalesces both fields, so a product with a null
field and the same product with an empty-string field satisfy the same match
predicate and receive the same composite score. -/
theorem search_null_fields_as_empty (fns : StoreFns) (q : String) (p : Product) :
    matchesAny fns q {p with description := none} =
      matchesAny fns q {p with description := some ""} ∧
    score fns q {p with description := none} =
      score fns q {p with description := some ""} ∧
    matchesAny fns q {p with shortDescription := none} =
      matchesAny fns q {p with shortDescription := some ""} ∧
    score fns q {p with shortDescription := none} =
      score fns q {p with shortDescription := some ""} :=
  ⟨rfl, rfl, rfl, rfl⟩

/-- C4 (amended): a stored product whose name case-insensitively equals the
query, where the query contains no backslash (LIKE's default escape
character), and which passes the active filter, appears in the search
results and its composite score includes the full 100-point exact-match CASE
term. -/
theorem search_exact_name_match (fns : StoreFns) (q : String) (incl : Bool)
    (rows : List Product) (p : Product) (hmem : p ∈ rows) (hq : '\\' ∉ q.data)
    (hname : lowerStr p.name = lowerStr q) (hact : incl = true ∨ p.isActive = true) :
    p ∈ ProductModel.search fns q incl rows ∧ exactTerm q p = 100 := by
  constructor
  · rw [mem_search_iff]
    refine ⟨hmem, ?_⟩
    have hlp : '\\' ∉ (lowerStr p.name).data := by
      rw [hname]
      exact backslash_not_mem_lowerStr q hq
    have hlk : sqlLike (lowerStr p.name) (lowerStr (searchPattern q)) = true := by
      rw [sqlLike, data_lowerStr_searchPattern, ← hname]
      exact likeMatch_pct_wrap (lowerStr p.name).data hlp
    have hs : strategy1 q p = true := by
      rw [strategy1, hlk]
      simp
    have hm : matchesAny fns q p = true := by
      rw [matchesAny, hs]
      simp
    rw [Bool.and_eq_true, Bool.or_eq_true]
    rcases hact with h | h
    · exact ⟨Or.inl h, hm⟩
    · exact ⟨Or.inr h, hm⟩
  · rw [exactTerm, if_pos hname]

/-- C4 (counterexample to the claim as stated): the active product named
`"\"` equals the query `"\"` case-insensitively, yet search returns nothing:
the pattern `%\%` demands a literal trailing `%` (the interpolated backslash
escapes the appended wildcard), `plainto_tsquery` on `"\"` is the empty
query, and a trigram-less string has zero similarity — so no strategy
matches and the product is excluded despite the exact name equality. -/
theorem search_exact_backslash_missed :
    lowerStr escRow.name = lowerStr "\\" ∧ escRow.isActive = true ∧
    ProductModel.search zeroFns "\\" true [escRow] = [] := by
  refine ⟨rfl, rfl, ?_⟩
  have h1 : strategy1 "\\" escRow = false := by decide
  have hm : matchesAny zeroFns "\\" escRow = false := by
    simp only [matchesAny, h1, zeroFns, Bool.false_or]
    rw [decide_eq_false (by norm_num : ¬ ((1 : ℚ)/5 < 0)),
      decide_eq_false (by norm_num : ¬ ((3 : ℚ)/10 < 0))]
    rfl
  have hf : (List.filter (fun p => (true || p.isActive) && matchesAny zeroFns "\\" p)
      [escRow]) = [] := by
    simp [hm]
  unfold ProductModel.search
  rw [hf]
  rfl

/-- Witness for C4: the active product named "Solar" under the
backslash-free query "solar" (case-insensitive equality) is returned and
carries the 100-point term. -/
theorem search_exact_name_match_witness :
    solarCapRow ∈ ([solarCapRow] : List Product) ∧
    '\\' ∉ ("solar" : String).data ∧
    lowerStr solarCapRow.name = lowerStr "solar" ∧
    (true = true ∨ solarCapRow.isActive = true) ∧
    (solarCapRow ∈ ProductModel.search zeroFns "solar" true [solarCapRow] ∧
      exactTerm "solar" solarCapRow = 100) :=
  ⟨by decide, by decide, by decide, Or.inl rfl,
    search_exact_name_match zeroFns "solar" true [solarCapRow] solarCapRow
      (by decide) (by decide) (by decide) (Or.inl rfl)⟩

/-- C6: when the lowercased name starts with the lowercased query, the
composite score is at least the score the same product would receive without
the start-bonus term, all other terms unchanged — the score always equals
the other terms plus the CASE bonus, which is never negative — and for a
query free of LIKE's escape character the prefix property makes the bonus
exactly the full 50 points. -/
theorem search_starts_bonus_monotone (fns : StoreFns) (q : String) (p : Product)
    (h : (lowerStr q).data <+: (lowerStr p.name).data) :
    scoreOtherTerms fns q p ≤ score fns q p ∧
    ('\\' ∉ q.data → score fns q p = scoreOtherTerms fns q p + 50) := by
  have hsplit : score fns q p = scoreOtherTerms fns q p + startsTerm q p := by
    simp only [score, scoreOtherTerms]
    ring
  constructor
  · have hb : startsTerm q p = 0 ∨ startsTerm q p = 50 := by
      simp only [startsTerm]
      split_ifs <;> simp
    rcases hb with hb | hb <;> rw [hsplit, hb] <;> linarith
  · intro hq
    obtain ⟨u, hu⟩ := h
    have hlq : '\\' ∉ (lowerStr q).data := backslash_not_mem_lowerStr q hq
    have hlk : sqlLike (lowerStr p.name) (lowerStr (q ++ "%")) = true := by
      rw [sqlLike, data_lowerStr_append, data_lowerStr_pct, ← hu]
      exact likeMatch_append_pct (lowerStr q).data (lowerStr q).data u
        (likeMatch_self (lowerStr q).data hlq)
    have hb : startsTerm q p = 50 := by
      simp only [startsTerm, if_pos hlk]
    rw [hsplit, hb]

/-- Witness for C6: "Solar" starts with the backslash-free query "sol"
(after lowercasing), its score is at least the other terms, and the bonus is
the full 50 points. -/
theorem search_starts_bonus_monotone_witness :
    (lowerStr "sol").data <+: (lowerStr solarCapRow.name).data ∧
    (scoreOtherTerms zeroFns "sol" solarCapRow ≤ score zeroFns "sol" solarCapRow ∧
      ('\\' ∉ ("sol" : String).data →
        score zeroFns "sol" solarCapRow = scoreOtherTerms zeroFns "sol" solarCapRow + 50)) :=
  ⟨⟨['a', 'r'], by decide⟩,
    search_starts_bonus_monotone zeroFns "sol" solarCapRow ⟨['a', 'r'], by decide⟩⟩

/-- C10: the LIKE strategy and score bonuses treat `%` (and `_`) in the query
as wildcards, not literal characters: for every stored product passing the
active filter, the query "%" satisfies strategy 1 through the name column,
earns the 25-point contains bonus, and places the product in the results,
whether or not any field literally contains a `%`. -/
theorem search_wildcard_query (fns : StoreFns) (incl : Bool) (rows : List Product)
    (p : Product) (hmem : p ∈ rows) (hact : incl = true ∨ p.isActive = true) :
    strategy1 "%" p = true ∧ containsTerm "%" p = 25 ∧
    p ∈ ProductModel.search fns "%" incl rows := by
  have hall : ∀ s : List Char, likeMatch (lowerStr (searchPattern "%")).data s = true := by
    intro s
    have hd : (lowerStr (searchPattern "%")).data = ['%', '%', '%'] := by decide
    rw [hd]
    exact likeMatch_all_pct ['%', '%', '%'] (by simp) (by decide) s
  have hlk : sqlLike (lowerStr p.name) (lowerStr (searchPattern "%")) = true := by
    rw [sqlLike]
    exact hall (lowerStr p.name).data
  have hs : strategy1 "%" p = true := by
    rw [strategy1, hlk]
    simp
  refine ⟨hs, by rw [containsTerm, if_pos hlk], ?_⟩
  rw [mem_search_iff]
  refine ⟨hmem, ?_⟩
  have hm : matchesAny fns "%" p = true := by
    rw [matchesAny, hs]
    simp
  rw [Bool.and_eq_true, Bool.or_eq_true]
  rcases hact with h | h
  · exact ⟨Or.inl h, hm⟩
  · exact ⟨Or.inr h, hm⟩

/-- Witness for C10: the product named "aaa" — no field contains a literal
`%` — is matched and bonused by the query "%". -/
theorem search_wildcard_query_witness :
    plainRow ∈ ([plainRow] : List Product) ∧
    (true = true ∨ plainRow.isActive = true) ∧
    (strategy1 "%" plainRow = true ∧ containsTerm "%" plainRow = 25 ∧
      plainRow ∈ ProductModel.search zeroFns "%" true [plainRow]) :=
  ⟨by decide, Or.inl rfl,
    search_wildcard_query zeroFns true [plainRow] plainRow (by decide) (Or.inl rfl)⟩

/-- C1 (amended): search orders its results by descending composite score,
where the composite score is the one the source's ORDER BY computes — the
100/50/25 CASE terms, `ts_rank` over the weighted document of name (A) and
description (B) only, times 10, trigram similarity times 30 and word
similarity times 20.  The short description is not part of the ranking
document, unlike matching strategy 2's document. -/
theorem search_ordered_by_code_composite (fns : StoreFns) (q : String) (incl : Bool)
    (rows : List Product) :
    List.Pairwise (fun a b => score fns q b ≤ score fns q a)
      (ProductModel.search fns q incl rows) :=
  List.sorted_insertionSort (rankRel fns q) _

/-- C1 (counterexample to the claim as stated): under the ranking `cexFns` —
legitimate in that it depends only on the weighted document and the query —
the product whose only "solar" occurrence is in its short description ranks
200 under the spec's composite (rank over the strategy-2 document, which
includes weight C) yet is returned LAST: the source orders by a rank over
name and description only, which gives it 0.  So search does not order by
descending spec composite: the concrete result lists the 25-point product
before the 200-point one. -/
theorem search_order_contradicts_spec_composite :
    ProductModel.search cexFns "solar" true [cexHidden, cexPlain] =
      [cexPlain, cexHidden] ∧
    specScore cexFns "solar" cexPlain < specScore cexFns "solar" cexHidden := by
  have hm1 : matchesAny cexFns "solar" cexHidden = true := by
    have hs : strategy1 "solar" cexHidden = true := by decide
    simp [matchesAny, hs]
  have hm2 : matchesAny cexFns "solar" cexPlain = true := by
    have hs : strategy1 "solar" cexPlain = true := by decide
    simp [matchesAny, hs]
  have e1 : exactTerm "solar" cexHidden = 0 := by
    have h : ¬ lowerStr cexHidden.name = lowerStr "solar" := by decide
    simp only [exactTerm, if_neg h]
  have s1 : startsTerm "solar" cexHidden = 0 := by
    have h : ¬ sqlLike (lowerStr cexHidden.name) (lowerStr ("solar" ++ "%")) = true := by
      decide
    simp only [startsTerm, if_neg h]
  have c1 : containsTerm "solar" cexHidden = 0 := by
    have h : ¬ sqlLike (lowerStr cexHidden.name) (lowerStr (searchPattern "solar")) = true := by
      decide
    simp only [containsTerm, if_neg h]
  have e2 : exactTerm "solar" cexPlain = 0 := by
    have h : ¬ lowerStr cexPlain.name = lowerStr "solar" := by decide
    simp only [exactTerm, if_neg h]
  have s2 : startsTerm "solar" cexPlain = 0 := by
    have h : ¬ sqlLike (lowerStr cexPlain.name) (lowerStr ("solar" ++ "%")) = true := by
      decide
    simp only [startsTerm, if_neg h]
  have c2 : containsTerm "solar" cexPlain = 25 := by
    have h : sqlLike (lowerStr cexPlain.name) (lowerStr (searchPattern "solar")) = true := by
      decide
    simp only [containsTerm, if_pos h]
  have r1 : cexFns.tsRank (rankDoc cexHidden) "solar" = 0 := by
    have h : List.countP (fun wf => wf.2 == "solar") (rankDoc cexHidden) = 0 := by decide
    norm_num [cexFns, h]
  have r2 : cexFns.tsRank (rankDoc cexPlain) "solar" = 0 := by
    have h : List.countP (fun wf => wf.2 == "solar") (rankDoc cexPlain) = 0 := by decide
    norm_num [cexFns, h]
  have f1 : cexFns.tsRank (ftsDoc cexHidden) "solar" = 20 := by
    have h : List.countP (fun wf => wf.2 == "solar") (ftsDoc cexHidden) = 1 := by decide
    norm_num [cexFns, h]
  have f2 : cexFns.tsRank (ftsDoc cexPlain) "solar" = 0 := by
    have h : List.countP (fun wf => wf.2 == "solar") (ftsDoc cexPlain) = 0 := by decide
    norm_num [cexFns, h]
  have hsc1 : score cexFns "solar" cexHidden = 0 := by
    simp only [score, e1, s1, c1, r1]
    norm_num [cexFns]
  have hsc2 : score cexFns "solar" cexPlain = 25 := by
    simp only [score, e2, s2, c2, r2]
    norm_num [cexFns]
  have hsp1 : specScore cexFns "solar" cexHidden = 200 := by
    simp only [specScore, e1, s1, c1, f1]
    norm_num [cexFns]
  have hsp2 : specScore cexFns "solar" cexPlain = 25 := by
    simp only [specScore, e2, s2, c2, f2]
    norm_num [cexFns]
  have hrel : ¬ rankRel cexFns "solar" cexHidden cexPlain := by
    simp only [rankRel, hsc1, hsc2]
    norm_num
  constructor
  · unfold ProductModel.search
    have hf : (List.filter
        (fun p => (true || p.isActive) && matchesAny cexFns "solar" p)
        [cexHidden, cexPlain]) = [cexHidden, cexPlain] := by
      simp [List.filter_cons, hm1, hm2]
    rw [hf]
    simp [List.insertionSort, List.orderedInsert, if_neg hrel]
  · rw [hsp2, hsp1]
    norm_num

end GoGreen
